import Mathlib

/-!
# nRF54L boot firmware: MMIO trace and memory effect of `main`

A shallow embedding of `src/nrf54l_firmware.cpp`.  The program is a straight
line of volatile stores through four `mmio_ptr<volatile uint32_t>` handles, one
compound assignment (`^=`) on a dereferenced handle, and an empty
`while (true) {}` loop.

Machine words are natural numbers below `2 ^ 32`; every store truncates its
operand to 32 bits, as the conversion to `uint32_t` does.  The state carried
through the statements is the register memory together with the list of
volatile accesses issued so far, oldest first.  The trace and the contents of
the seven registers are followed on a memory of register words; the effect on
every byte address is followed on a byte-addressed memory, where a 32-bit store
covers four bytes.
-/

namespace Nrf54l

/-! ## Typed MMIO pointer -/

/-- Width in bytes of one `uint32_t` register. -/
def element_width : Nat := 4

/-- Number of distinct `uint32_t` values, `2 ^ 32`. -/
def word_modulus : Nat := 2 ^ 32

/-- A handle `mmio_ptr<volatile uint32_t>`: the bound physical address. -/
structure mmio_ptr where
  p : Nat
deriving DecidableEq, Repr

/-- Modelled from the spec: `mmio_ptr::operator*` of the header `mmio/mmio.h`,
which is not among the sources.  The scalar access happens at the bound
address. -/
def mmio_ptr.deref (m : mmio_ptr) : Nat := m.p

/-- Modelled from the spec: `mmio_ptr::operator[]` of the header `mmio/mmio.h`,
which is not among the sources.  The access happens at
`base + n * element_width`. -/
def mmio_ptr.index (m : mmio_ptr) (n : Nat) : Nat := m.p + n * element_width

/-- Source line 4: `mmio_ptr<volatile uint32_t> P2_OUT {0x50050400};` -/
def P2_OUT : mmio_ptr := ⟨0x50050400⟩

/-- Source line 5: `mmio_ptr<volatile uint32_t> P2_PIN_CNF {0x50050480};` -/
def P2_PIN_CNF : mmio_ptr := ⟨0x50050480⟩

/-- Source line 7: `mmio_ptr<volatile uint32_t> TAMPC_PROTECT_DOMAIN0_x {0x500dc500};` -/
def TAMPC_PROTECT_DOMAIN0_x : mmio_ptr := ⟨0x500dc500⟩

/-- Source line 8: `mmio_ptr<volatile uint32_t> TAMPC_PROTECT_AP0_x {0x500dc700};` -/
def TAMPC_PROTECT_AP0_x : mmio_ptr := ⟨0x500dc700⟩

/-! ## Places, accesses, memory -/

/-- The lvalue expressions the program forms from a handle: `*ptr` and
`ptr[n]`. -/
inductive Place where
  | deref (ptr : mmio_ptr)
  | index (ptr : mmio_ptr) (n : Nat)
deriving DecidableEq, Repr

/-- The handle a place is formed from. -/
def Place.ptr : Place → mmio_ptr
  | .deref ptr => ptr
  | .index ptr _ => ptr

/-- The byte address a place designates. -/
def Place.addr : Place → Nat
  | .deref ptr => ptr.deref
  | .index ptr n => ptr.index n

/-- Direction of a volatile access. -/
inductive Access where
  | read
  | write
deriving DecidableEq, Repr

/-- One volatile access as it appears in the trace: its direction, the place
accessed and the 32-bit value read or written. -/
structure Op where
  kind : Access
  place : Place
  value : Nat
deriving DecidableEq, Repr

/-- The byte address of an access. -/
def Op.addr (o : Op) : Nat := o.place.addr

/-- Register memory: the 32-bit word of each register, keyed by the address of
the register.  Distinct addresses name independent cells, so this memory follows
registers whose four-byte footprints do not overlap, as the seven registers of
`main` do not; what a store does to single bytes is read off `Bytes`. -/
structure Memory where
  cell : Nat → Nat
  word : ∀ a, cell a < word_modulus

/-- Memory with one register replaced by the 32-bit truncation of `v`. -/
def Memory.set (m : Memory) (a v : Nat) : Memory where
  cell := fun b => if b = a then v % word_modulus else m.cell b
  word := by
    intro b
    by_cases h : b = a
    · simp only [h, if_true]
      exact Nat.mod_lt _ (by decide)
    · simp only [h, if_false]
      exact m.word b

/-- Memory in which every register holds 0. -/
def Memory.zero : Memory where
  cell := fun _ => 0
  word := by
    intro _
    simp [word_modulus]

/-- Execution state: register memory and the accesses issued so far. -/
structure Machine where
  mem : Memory
  trace : List Op

/-- State at entry to `main`: the given memory, nothing issued yet. -/
def Machine.boot (m : Memory) : Machine := ⟨m, []⟩

/-- A volatile store `place = v;`. The operand is converted to `uint32_t`. -/
def store (pl : Place) (v : Nat) (s : Machine) : Machine :=
  { mem := s.mem.set pl.addr v
    trace := s.trace ++ [⟨.write, pl, v % word_modulus⟩] }

/-- A volatile load of `place`: the value and the state after the access. -/
def load (pl : Place) (s : Machine) : Nat × Machine :=
  (s.mem.cell pl.addr,
   { mem := s.mem
     trace := s.trace ++ [⟨.read, pl, s.mem.cell pl.addr⟩] })

/-- A compound assignment `place ^= v;` on a volatile `uint32_t`: one load,
then one store of the exclusive-or. -/
def xor_assign (pl : Place) (v : Nat) (s : Machine) : Machine :=
  let r := load pl s
  store pl (r.1 ^^^ (v % word_modulus)) r.2

/-! ## The program -/

/-- Source lines 11 to 23: the statements of `main` before the loop. -/
def main_sequence (s : Machine) : Machine :=
  let s := store (.index TAMPC_PROTECT_DOMAIN0_x 0) 0x50fa00f0 s
  let s := store (.index TAMPC_PROTECT_DOMAIN0_x 0) 0x50fa0001 s
  let s := store (.index TAMPC_PROTECT_DOMAIN0_x 2) 0x50fa00f0 s
  let s := store (.index TAMPC_PROTECT_DOMAIN0_x 2) 0x50fa0001 s
  let s := store (.index TAMPC_PROTECT_DOMAIN0_x 4) 0x50fa00f0 s
  let s := store (.index TAMPC_PROTECT_DOMAIN0_x 4) 0x50fa0001 s
  let s := store (.index TAMPC_PROTECT_DOMAIN0_x 6) 0x50fa00f0 s
  let s := store (.index TAMPC_PROTECT_DOMAIN0_x 6) 0x50fa0001 s
  let s := store (.index TAMPC_PROTECT_AP0_x 0) 0x50fa00f0 s
  let s := store (.index TAMPC_PROTECT_AP0_x 0) 0x50fa0001 s
  let s := store (.index P2_PIN_CNF 9) 1 s
  xor_assign (.deref P2_OUT) (1 <<< 9) s

/-- Source line 25: `while (true) {}` run for `n` iterations.  The condition is
the constant `true` and the body is the empty block. -/
def idle_loop : Nat → Machine → Machine
  | 0, s => s
  | n + 1, s => idle_loop n s

/-- Source lines 10 to 26: `main`, observed after `n` iterations of its final
loop. -/
def main (n : Nat) (s : Machine) : Machine :=
  idle_loop n (main_sequence s)

/-- The accesses `main` has issued after `n` loop iterations, from memory `m`. -/
def main_trace (n : Nat) (m : Memory) : List Op :=
  (main n (Machine.boot m)).trace

/-- The register sequence of `main` as a function on memories. -/
def run (m : Memory) : Memory :=
  (main_sequence (Machine.boot m)).mem

/-! ## Reading a trace -/

/-- Positions, counted from `i`, of the accesses of a trace that satisfy `q`. -/
def positions_from (q : Op → Bool) : Nat → List Op → List Nat
  | _, [] => []
  | i, o :: t =>
    if q o then i :: positions_from q (i + 1) t else positions_from q (i + 1) t

/-- Positions (from 0) of the accesses of a trace that satisfy `q`. -/
def positions (q : Op → Bool) (t : List Op) : List Nat :=
  positions_from q 0 t

/-- Is `o` a write of `v` to place `pl`? -/
def is_write_of (pl : Place) (v : Nat) (o : Op) : Bool :=
  decide (o.kind = .write) && decide (o.place = pl) && decide (o.value = v)

/-- Is `o` a write of `v` to the byte address `a`? -/
def is_write_at_of (a v : Nat) (o : Op) : Bool :=
  decide (o.kind = .write) && decide (o.addr = a) && decide (o.value = v)

/-- Is `o` a write to the byte address `a`? -/
def is_write_at (a : Nat) (o : Op) : Bool :=
  decide (o.kind = .write) && decide (o.addr = a)

/-- Is `o` a read of the byte address `a`? -/
def is_read_at (a : Nat) (o : Op) : Bool :=
  decide (o.kind = .read) && decide (o.addr = a)

/-- Is `o` a write through the handle `ptr`? -/
def is_write_via (ptr : mmio_ptr) (o : Op) : Bool :=
  decide (o.kind = .write) && decide (o.place.ptr = ptr)

/-- The five registers that receive the two-phase unlock. -/
def unlock_places : List Place :=
  [.index TAMPC_PROTECT_DOMAIN0_x 0, .index TAMPC_PROTECT_DOMAIN0_x 2,
   .index TAMPC_PROTECT_DOMAIN0_x 4, .index TAMPC_PROTECT_DOMAIN0_x 6,
   .index TAMPC_PROTECT_AP0_x 0]

/-- The seven places `main` accesses. -/
def accessed_places : List Place :=
  unlock_places ++ [.index P2_PIN_CNF 9, .deref P2_OUT]

/-- Is `o` a write through one of the two protection handles? -/
def is_unlock_write (o : Op) : Bool :=
  is_write_via TAMPC_PROTECT_DOMAIN0_x o || is_write_via TAMPC_PROTECT_AP0_x o

/-- In trace `t` the register at byte address `a` receives exactly one write
of `0x50FA00F0` and exactly one write of `0x50FA0001`, the former at a strictly
earlier position. -/
def two_phase_in_order (t : List Op) (a : Nat) : Prop :=
  ∃ i j, positions (is_write_at_of a 0x50FA00F0) t = [i] ∧
    positions (is_write_at_of a 0x50FA0001) t = [j] ∧ i < j

/-- The places written through the two protection handles, in trace order. -/
def bank_writes (t : List Op) : List Place :=
  (t.filter is_unlock_write).map Op.place

/-- The values written through the two protection handles, in trace order. -/
def bank_write_values (t : List Op) : List Nat :=
  (t.filter is_unlock_write).map Op.value

/-- The values written to byte address `a`, in trace order. -/
def values_written_at (a : Nat) (t : List Op) : List Nat :=
  (t.filter (is_write_at a)).map Op.value

/-! ## Byte-addressed memory

`Memory` above keeps one word per register address, which is enough to follow
the seven registers of `main`: their four-byte footprints do not overlap.  A
`uint32_t` store nevertheless covers the four bytes `a` to `a + 3`, so what
happens at every byte address is read off the byte-addressed memory below.  The
source does not fix a byte order; both are carried. -/

/-- Byte order of a 32-bit access. -/
inductive Endian where
  | little
  | big
deriving DecidableEq, Repr

/-- Significance, in bytes, of the byte at offset `i` of a 32-bit word. -/
def Endian.lane : Endian → Nat → Nat
  | .little, i => i
  | .big, i => 3 - i

/-- Memory as bytes: one value below 256 per byte address. -/
structure Bytes where
  byte : Nat → Nat
  small : ∀ a, byte a < 256

/-- Byte memory in which every byte is 0. -/
def Bytes.zero : Bytes where
  byte := fun _ => 0
  small := by
    intro _
    simp

/-- The 32-bit word held in the four bytes from address `a`. -/
def Bytes.load32 (e : Endian) (b : Bytes) (a : Nat) : Nat :=
  b.byte a * 256 ^ e.lane 0 + b.byte (a + 1) * 256 ^ e.lane 1 +
    b.byte (a + 2) * 256 ^ e.lane 2 + b.byte (a + 3) * 256 ^ e.lane 3

/-- Byte memory after a 32-bit store of `v` at address `a`: the four bytes from
`a` take the bytes of `v`, every other byte is kept. -/
def Bytes.store32 (e : Endian) (b : Bytes) (a v : Nat) : Bytes where
  byte := fun x =>
    if a ≤ x ∧ x < a + element_width then v / 256 ^ e.lane (x - a) % 256 else b.byte x
  small := by
    intro x
    by_cases h : a ≤ x ∧ x < a + element_width
    · simp only [h, and_self, if_true]
      exact Nat.mod_lt _ (by decide)
    · simp only [h, if_false]
      exact b.small x

/-- A volatile store `place = v;` on byte memory. The operand is converted to
`uint32_t`. -/
def store_bytes (e : Endian) (pl : Place) (v : Nat) (b : Bytes) : Bytes :=
  b.store32 e pl.addr (v % word_modulus)

/-- A compound assignment `place ^= v;` on byte memory: the word is loaded and
the exclusive-or stored back. -/
def xor_assign_bytes (e : Endian) (pl : Place) (v : Nat) (b : Bytes) : Bytes :=
  store_bytes e pl (b.load32 e pl.addr ^^^ (v % word_modulus)) b

/-- Source lines 11 to 23 on byte memory: the statements of `main` before the
loop. -/
def main_sequence_bytes (e : Endian) (b : Bytes) : Bytes :=
  let b := store_bytes e (.index TAMPC_PROTECT_DOMAIN0_x 0) 0x50fa00f0 b
  let b := store_bytes e (.index TAMPC_PROTECT_DOMAIN0_x 0) 0x50fa0001 b
  let b := store_bytes e (.index TAMPC_PROTECT_DOMAIN0_x 2) 0x50fa00f0 b
  let b := store_bytes e (.index TAMPC_PROTECT_DOMAIN0_x 2) 0x50fa0001 b
  let b := store_bytes e (.index TAMPC_PROTECT_DOMAIN0_x 4) 0x50fa00f0 b
  let b := store_bytes e (.index TAMPC_PROTECT_DOMAIN0_x 4) 0x50fa0001 b
  let b := store_bytes e (.index TAMPC_PROTECT_DOMAIN0_x 6) 0x50fa00f0 b
  let b := store_bytes e (.index TAMPC_PROTECT_DOMAIN0_x 6) 0x50fa0001 b
  let b := store_bytes e (.index TAMPC_PROTECT_AP0_x 0) 0x50fa00f0 b
  let b := store_bytes e (.index TAMPC_PROTECT_AP0_x 0) 0x50fa0001 b
  let b := store_bytes e (.index P2_PIN_CNF 9) 1 b
  xor_assign_bytes e (.deref P2_OUT) (1 <<< 9) b

/-- The word view of a byte memory: at each address the 32-bit word that starts
there. -/
def Bytes.words (e : Endian) (b : Bytes) : Memory where
  cell := fun a => b.load32 e a
  word := by
    intro a
    have h0 := b.small a
    have h1 := b.small (a + 1)
    have h2 := b.small (a + 2)
    have h3 := b.small (a + 3)
    cases e <;> simp only [Bytes.load32, Endian.lane, word_modulus] <;> omega

/-! ## Shared lemmas -/

theorem idle_loop_eq (n : Nat) (s : Machine) : idle_loop n s = s := by
  induction n with
  | zero => rfl
  | succ k ih => simpa [idle_loop] using ih

/-- The trace of `main`, written out. -/
theorem main_trace_eq (n : Nat) (m : Memory) :
    main_trace n m =
      [⟨.write, .index TAMPC_PROTECT_DOMAIN0_x 0, 0x50fa00f0⟩,
       ⟨.write, .index TAMPC_PROTECT_DOMAIN0_x 0, 0x50fa0001⟩,
       ⟨.write, .index TAMPC_PROTECT_DOMAIN0_x 2, 0x50fa00f0⟩,
       ⟨.write, .index TAMPC_PROTECT_DOMAIN0_x 2, 0x50fa0001⟩,
       ⟨.write, .index TAMPC_PROTECT_DOMAIN0_x 4, 0x50fa00f0⟩,
       ⟨.write, .index TAMPC_PROTECT_DOMAIN0_x 4, 0x50fa0001⟩,
       ⟨.write, .index TAMPC_PROTECT_DOMAIN0_x 6, 0x50fa00f0⟩,
       ⟨.write, .index TAMPC_PROTECT_DOMAIN0_x 6, 0x50fa0001⟩,
       ⟨.write, .index TAMPC_PROTECT_AP0_x 0, 0x50fa00f0⟩,
       ⟨.write, .index TAMPC_PROTECT_AP0_x 0, 0x50fa0001⟩,
       ⟨.write, .index P2_PIN_CNF 9, 1⟩,
       ⟨.read, .deref P2_OUT, m.cell 0x50050400⟩,
       ⟨.write, .deref P2_OUT, (m.cell 0x50050400 ^^^ 0x200) % word_modulus⟩] := by
  simp [main_trace, main, idle_loop_eq, main_sequence, xor_assign, load, store,
    Machine.boot, Memory.set, Place.addr, mmio_ptr.index, mmio_ptr.deref,
    element_width, word_modulus, P2_OUT, P2_PIN_CNF, TAMPC_PROTECT_DOMAIN0_x,
    TAMPC_PROTECT_AP0_x]

theorem xor_word_lt (v : Nat) (h : v < word_modulus) : v ^^^ 0x200 < word_modulus := by
  unfold word_modulus at *
  exact Nat.xor_lt_two_pow h (by decide)

theorem xor_word_mod (m : Memory) (a : Nat) :
    (m.cell a ^^^ 0x200) % word_modulus = m.cell a ^^^ 0x200 :=
  Nat.mod_eq_of_lt (xor_word_lt _ (m.word a))

theorem xor_twice (v : Nat) : (v ^^^ 0x200) ^^^ 0x200 = v := by
  rw [Nat.xor_assoc, Nat.xor_self, Nat.xor_zero]

theorem xor_ne (v : Nat) : v ^^^ 0x200 ≠ v := by
  intro h
  have h2 : (v ^^^ v) ^^^ 0x200 = v ^^^ v := by
    rw [Nat.xor_assoc, h]
  rw [Nat.xor_self] at h2
  simp at h2

/-- Every 32-bit word is the content of the GPIO output register in some
memory. -/
theorem gpio_holds_any_word (v : Nat) (hv : v < word_modulus) :
    (Memory.zero.set P2_OUT.deref v).cell P2_OUT.deref = v := by
  simp [Memory.set, Nat.mod_eq_of_lt hv]

/-- The memory after the register sequence, register by register. -/
theorem run_cell (m : Memory) (a : Nat) :
    (run m).cell a =
      if a = 0x50050400 then m.cell 0x50050400 ^^^ 0x200
      else if a = 0x500504A4 then 1
      else if a = 0x500DC500 ∨ a = 0x500DC508 ∨ a = 0x500DC510 ∨ a = 0x500DC518 ∨
          a = 0x500DC700 then 0x50FA0001
      else m.cell a := by
  have hx := xor_word_mod m 0x50050400
  simp only [run, main_sequence, xor_assign, load, store, Machine.boot, Memory.set,
    Place.addr, mmio_ptr.index, mmio_ptr.deref, element_width, P2_OUT, P2_PIN_CNF,
    TAMPC_PROTECT_DOMAIN0_x, TAMPC_PROTECT_AP0_x]
  by_cases h1 : a = 0x50050400
  · subst h1
    simpa [word_modulus] using hx
  · by_cases h2 : a = 0x500504A4
    · subst h2
      simp [word_modulus]
    · by_cases h3 : a = 0x500DC500 ∨ a = 0x500DC508 ∨ a = 0x500DC510 ∨ a = 0x500DC518 ∨
          a = 0x500DC700
      · rcases h3 with h | h | h | h | h <;> subst h <;> simp [word_modulus]
      · rw [if_neg h1, if_neg h2, if_neg h3]
        simp only [not_or] at h3
        obtain ⟨g1, g2, g3, g4, g5⟩ := h3
        simp [h1, h2, g1, g2, g3, g4, g5]

theorem load32_lt (e : Endian) (b : Bytes) (a : Nat) : b.load32 e a < word_modulus :=
  (b.words e).word a

/-- A 32-bit store leaves every byte outside its four-byte footprint alone. -/
theorem store32_byte_outside (e : Endian) (b : Bytes) (a v x : Nat)
    (h : x < a ∨ a + 4 ≤ x) : (b.store32 e a v).byte x = b.byte x := by
  have hn : ¬ (a ≤ x ∧ x < a + element_width) := by
    simp only [element_width]; omega
  simp only [Bytes.store32, hn, if_false]

/-- Loading the word just stored gives its 32-bit truncation. -/
theorem load32_store32_same (e : Endian) (b : Bytes) (a v : Nat) :
    (b.store32 e a v).load32 e a = v % word_modulus := by
  cases e <;>
  simp [Bytes.load32, Bytes.store32, Endian.lane, element_width, word_modulus] <;>
  omega

/-- A 32-bit store leaves the word at a disjoint footprint alone. -/
theorem load32_store32_apart (e : Endian) (b : Bytes) (a v c : Nat)
    (h : c + 4 ≤ a ∨ a + 4 ≤ c) : (b.store32 e a v).load32 e c = b.load32 e c := by
  simp only [Bytes.load32]
  rw [store32_byte_outside e b a v c (by omega),
    store32_byte_outside e b a v (c + 1) (by omega),
    store32_byte_outside e b a v (c + 2) (by omega),
    store32_byte_outside e b a v (c + 3) (by omega)]

/-- The byte memory after the register sequence, outside the seven footprints. -/
theorem main_sequence_bytes_outside (e : Endian) (b : Bytes) (x : Nat)
    (h : ∀ pl ∈ accessed_places, x < pl.addr ∨ pl.addr + element_width ≤ x) :
    (main_sequence_bytes e b).byte x = b.byte x := by
  simp [accessed_places, unlock_places, Place.addr, mmio_ptr.index, mmio_ptr.deref,
    element_width, P2_OUT, P2_PIN_CNF, TAMPC_PROTECT_DOMAIN0_x,
    TAMPC_PROTECT_AP0_x] at h
  obtain ⟨h1, h2, h3, h4, h5, h6, h7⟩ := h
  simp only [main_sequence_bytes, xor_assign_bytes, store_bytes, Place.addr,
    mmio_ptr.index, mmio_ptr.deref, element_width, P2_OUT, P2_PIN_CNF,
    TAMPC_PROTECT_DOMAIN0_x, TAMPC_PROTECT_AP0_x]
  rw [store32_byte_outside _ _ _ _ _ h7, store32_byte_outside _ _ _ _ _ h6,
    store32_byte_outside _ _ _ _ _ h5, store32_byte_outside _ _ _ _ _ h5,
    store32_byte_outside _ _ _ _ _ h4, store32_byte_outside _ _ _ _ _ h4,
    store32_byte_outside _ _ _ _ _ h3, store32_byte_outside _ _ _ _ _ h3,
    store32_byte_outside _ _ _ _ _ h2, store32_byte_outside _ _ _ _ _ h2,
    store32_byte_outside _ _ _ _ _ h1, store32_byte_outside _ _ _ _ _ h1]

/-- The words the seven registers hold after the register sequence on byte
memory. -/
theorem main_sequence_bytes_registers (e : Endian) (b : Bytes) :
    (main_sequence_bytes e b).load32 e 0x500DC500 = 0x50FA0001 ∧
    (main_sequence_bytes e b).load32 e 0x500DC508 = 0x50FA0001 ∧
    (main_sequence_bytes e b).load32 e 0x500DC510 = 0x50FA0001 ∧
    (main_sequence_bytes e b).load32 e 0x500DC518 = 0x50FA0001 ∧
    (main_sequence_bytes e b).load32 e 0x500DC700 = 0x50FA0001 ∧
    (main_sequence_bytes e b).load32 e 0x500504A4 = 1 ∧
    (main_sequence_bytes e b).load32 e 0x50050400 = b.load32 e 0x50050400 ^^^ 0x200 := by
  have hx : (b.load32 e 0x50050400 ^^^ 0x200) % word_modulus =
      b.load32 e 0x50050400 ^^^ 0x200 :=
    Nat.mod_eq_of_lt (xor_word_lt _ (load32_lt e b _))
  simp only [main_sequence_bytes, xor_assign_bytes, store_bytes, Place.addr,
    mmio_ptr.index, mmio_ptr.deref, element_width, P2_OUT, P2_PIN_CNF,
    TAMPC_PROTECT_DOMAIN0_x, TAMPC_PROTECT_AP0_x]
  refine ⟨?_, ?_, ?_, ?_, ?_, ?_, ?_⟩ <;>
  simp (disch := omega) only [load32_store32_apart, load32_store32_same] <;>
  simp [word_modulus] at hx ⊢
  exact hx

/-- On the seven registers the memory of register words and the byte memory
agree after the register sequence. -/
theorem run_words_agree (e : Endian) (b : Bytes) :
    ∀ pl ∈ accessed_places,
      (run (b.words e)).cell pl.addr = (main_sequence_bytes e b).load32 e pl.addr := by
  obtain ⟨h1, h2, h3, h4, h5, h6, h7⟩ := main_sequence_bytes_registers e b
  simp [accessed_places, unlock_places, run_cell, Place.addr, mmio_ptr.index,
    mmio_ptr.deref, element_width, P2_OUT, P2_PIN_CNF, TAMPC_PROTECT_DOMAIN0_x,
    TAMPC_PROTECT_AP0_x, h1, h2, h3, h4, h5, h6, h7, Bytes.words]

/-! ## Claims -/

/-- C1: in the trace of `main`, each of the five unlock registers receives
exactly one write of `0x50FA00F0` and exactly one write of `0x50FA0001`, and the
former is at a strictly earlier trace position. -/
theorem C1_unlock_two_phase_order (n : Nat) (m : Memory) :
    two_phase_in_order (main_trace n m) (TAMPC_PROTECT_DOMAIN0_x.index 0) ∧
    two_phase_in_order (main_trace n m) (TAMPC_PROTECT_DOMAIN0_x.index 2) ∧
    two_phase_in_order (main_trace n m) (TAMPC_PROTECT_DOMAIN0_x.index 4) ∧
    two_phase_in_order (main_trace n m) (TAMPC_PROTECT_DOMAIN0_x.index 6) ∧
    two_phase_in_order (main_trace n m) (TAMPC_PROTECT_AP0_x.index 0) := by
  rw [main_trace_eq]
  refine ⟨⟨0, 1, ?_, ?_, by decide⟩, ⟨2, 3, ?_, ?_, by decide⟩, ⟨4, 5, ?_, ?_, by decide⟩,
    ⟨6, 7, ?_, ?_, by decide⟩, ⟨8, 9, ?_, ?_, by decide⟩⟩ <;>
  simp [positions, is_write_at_of, Op.addr, Place.addr, mmio_ptr.index, mmio_ptr.deref,
    element_width, P2_OUT, P2_PIN_CNF, TAMPC_PROTECT_DOMAIN0_x, TAMPC_PROTECT_AP0_x,
    positions_from]

/-- C2: the set of places written through the Protection-Domain handle and the
Access-Port handle is exactly Domain[0], Domain[2], Domain[4], Domain[6] and
AccessPort[0]; by address, the writes at or above `0x500DC500` go to exactly the
five addresses of these places. -/
theorem C2_unlock_targets_exact (n : Nat) (m : Memory) :
    (bank_writes (main_trace n m)).toFinset = unlock_places.toFinset ∧
    (((main_trace n m).filter
        (fun o => decide (o.kind = .write) && decide (0x500DC500 ≤ o.addr))).map
        Op.addr).toFinset = (unlock_places.map Place.addr).toFinset := by
  rw [main_trace_eq]
  constructor
  · simp [bank_writes, is_unlock_write, is_write_via, Place.ptr, unlock_places,
      P2_OUT, P2_PIN_CNF, TAMPC_PROTECT_DOMAIN0_x, TAMPC_PROTECT_AP0_x]
  · simp [unlock_places, Op.addr, Place.addr, mmio_ptr.index, mmio_ptr.deref,
      element_width, P2_OUT, P2_PIN_CNF, TAMPC_PROTECT_DOMAIN0_x, TAMPC_PROTECT_AP0_x]

/-- C3: from a memory in which the seven registers touched by `main` hold 0,
the register sequence leaves Domain[0], [2], [4], [6] and AccessPort[0] at
`0x50FA0001`, PinConfig[9] at 1 and GpioOut at `0x200`. -/
theorem C3_zero_memory_scenario (m : Memory)
    (h : ∀ pl ∈ accessed_places, m.cell pl.addr = 0) :
    (run m).cell (TAMPC_PROTECT_DOMAIN0_x.index 0) = 0x50FA0001 ∧
    (run m).cell (TAMPC_PROTECT_DOMAIN0_x.index 2) = 0x50FA0001 ∧
    (run m).cell (TAMPC_PROTECT_DOMAIN0_x.index 4) = 0x50FA0001 ∧
    (run m).cell (TAMPC_PROTECT_DOMAIN0_x.index 6) = 0x50FA0001 ∧
    (run m).cell (TAMPC_PROTECT_AP0_x.index 0) = 0x50FA0001 ∧
    (run m).cell (P2_PIN_CNF.index 9) = 1 ∧
    (run m).cell P2_OUT.deref = 0x200 := by
  have h0 : m.cell 0x50050400 = 0 := by
    have := h (.deref P2_OUT) (by simp [accessed_places])
    simpa [Place.addr, mmio_ptr.deref, P2_OUT] using this
  simp [run_cell, h0, mmio_ptr.index, mmio_ptr.deref, element_width, P2_OUT, P2_PIN_CNF,
    TAMPC_PROTECT_DOMAIN0_x, TAMPC_PROTECT_AP0_x]

/-- Witness for C3 at the all-zero memory. -/
theorem C3_zero_memory_scenario_witness :
    (∀ pl ∈ accessed_places, Memory.zero.cell pl.addr = 0) ∧
    ((run Memory.zero).cell (TAMPC_PROTECT_DOMAIN0_x.index 0) = 0x50FA0001 ∧
     (run Memory.zero).cell (TAMPC_PROTECT_DOMAIN0_x.index 2) = 0x50FA0001 ∧
     (run Memory.zero).cell (TAMPC_PROTECT_DOMAIN0_x.index 4) = 0x50FA0001 ∧
     (run Memory.zero).cell (TAMPC_PROTECT_DOMAIN0_x.index 6) = 0x50FA0001 ∧
     (run Memory.zero).cell (TAMPC_PROTECT_AP0_x.index 0) = 0x50FA0001 ∧
     (run Memory.zero).cell (P2_PIN_CNF.index 9) = 1 ∧
     (run Memory.zero).cell P2_OUT.deref = 0x200) :=
  ⟨fun _ _ => rfl, C3_zero_memory_scenario Memory.zero (fun _ _ => rfl)⟩

/-- C4: the trace of `main` has exactly one read and exactly one write of the
GPIO output register at `0x50050400`, the read comes first, and when the read
returns the 32-bit value `v` the value written is `v XOR 0x200`, itself a 32-bit
word. -/
theorem C4_gpio_read_modify_write (n : Nat) (m : Memory) (v : Nat)
    (hv : m.cell P2_OUT.deref = v) :
    v < word_modulus ∧ v ^^^ 0x200 < word_modulus ∧
    ∃ i j, positions (is_read_at 0x50050400) (main_trace n m) = [i] ∧
      positions (is_write_at 0x50050400) (main_trace n m) = [j] ∧ i < j ∧
      (main_trace n m).get? i = some ⟨.read, .deref P2_OUT, v⟩ ∧
      (main_trace n m).get? j = some ⟨.write, .deref P2_OUT, v ^^^ 0x200⟩ := by
  have hv2 : m.cell 0x50050400 = v := by
    simpa [mmio_ptr.deref, P2_OUT] using hv
  have hlt : v < word_modulus := hv2 ▸ m.word _
  refine ⟨hlt, xor_word_lt v hlt, 11, 12, ?_, ?_, by decide, ?_, ?_⟩ <;>
  rw [main_trace_eq, xor_word_mod, hv2] <;>
  simp [positions, positions_from, is_read_at, is_write_at, Op.addr, Place.addr,
    mmio_ptr.index, mmio_ptr.deref, element_width, P2_OUT, P2_PIN_CNF,
    TAMPC_PROTECT_DOMAIN0_x, TAMPC_PROTECT_AP0_x]

/-- Witness for C4: when the read returns `0x00000000` the value written is
`0x00000200`. -/
theorem C4_gpio_read_modify_write_witness :
    Memory.zero.cell P2_OUT.deref = 0 ∧
    ∃ i j, positions (is_read_at 0x50050400) (main_trace 0 Memory.zero) = [i] ∧
      positions (is_write_at 0x50050400) (main_trace 0 Memory.zero) = [j] ∧ i < j ∧
      (main_trace 0 Memory.zero).get? i = some ⟨.read, .deref P2_OUT, 0⟩ ∧
      (main_trace 0 Memory.zero).get? j = some ⟨.write, .deref P2_OUT, 0x200⟩ :=
  ⟨rfl, (C4_gpio_read_modify_write 0 Memory.zero 0 rfl).2.2⟩

/-- C5: the trace of `main` has exactly one write to the pin-configuration
bank; it is to index 9 with value 1, it comes strictly after each of the ten
unlock writes, and before the read and the write of the GPIO output register. -/
theorem C5_pin_config_once_after_unlock (n : Nat) (m : Memory) :
    ∃ k r w, positions (is_write_via P2_PIN_CNF) (main_trace n m) = [k] ∧
      positions (fun o => decide (o.kind = .write) &&
        decide (0x50050480 ≤ o.addr ∧ o.addr < 0x500DC500)) (main_trace n m) = [k] ∧
      (main_trace n m).get? k = some ⟨.write, .index P2_PIN_CNF 9, 1⟩ ∧
      (positions is_unlock_write (main_trace n m)).length = 10 ∧
      (∀ i ∈ positions is_unlock_write (main_trace n m), i < k) ∧
      positions (is_read_at P2_OUT.deref) (main_trace n m) = [r] ∧
      positions (is_write_at P2_OUT.deref) (main_trace n m) = [w] ∧
      k < r ∧ k < w := by
  rw [main_trace_eq]
  refine ⟨10, 11, 12, ?_, ?_, ?_, ?_, ?_, ?_, ?_, by decide, by decide⟩ <;>
  simp [positions, positions_from, is_unlock_write, is_write_via, is_read_at,
    is_write_at, Place.ptr, Op.addr, Place.addr, mmio_ptr.index, mmio_ptr.deref,
    element_width, P2_OUT, P2_PIN_CNF, TAMPC_PROTECT_DOMAIN0_x, TAMPC_PROTECT_AP0_x]

/-- C6: for every initial memory the trace of `main` has length 13: ten unlock
writes at positions 0 to 9, the pin-configuration write at 10, the read of the
GPIO output register at 11 and its write at 12, which is the last access; the
idle loop adds no access, however many iterations it runs. -/
theorem C6_trace_is_thirteen_operations (n : Nat) (m : Memory) :
    (main_trace n m).length = 13 ∧
    positions is_unlock_write (main_trace n m) = [0, 1, 2, 3, 4, 5, 6, 7, 8, 9] ∧
    positions (is_write_via P2_PIN_CNF) (main_trace n m) = [10] ∧
    positions (is_read_at P2_OUT.deref) (main_trace n m) = [11] ∧
    positions (is_write_at P2_OUT.deref) (main_trace n m) = [12] ∧
    (∃ v, (main_trace n m).getLast? = some ⟨.write, .deref P2_OUT, v⟩) ∧
    (∀ (k : Nat) (s : Machine), (idle_loop k s).trace = s.trace) ∧
    main_trace n m = (main_sequence (Machine.boot m)).trace := by
  refine ⟨?_, ?_, ?_, ?_, ?_, ?_, fun k s => by rw [idle_loop_eq], by
    simp only [main_trace, main, idle_loop_eq]⟩ <;>
  rw [main_trace_eq] <;>
  simp [positions, positions_from, is_unlock_write, is_write_via, is_read_at,
    is_write_at, Place.ptr, Op.addr, Place.addr, mmio_ptr.index, mmio_ptr.deref,
    element_width, P2_OUT, P2_PIN_CNF, TAMPC_PROTECT_DOMAIN0_x, TAMPC_PROTECT_AP0_x]

/-- C7: the register sequence is not idempotent on memories, and on the GPIO
output register it is an involution: run twice it restores the value the
register had at first, run once it changes that value. -/
theorem C7_not_idempotent_gpio_involution (m : Memory) :
    (run (run m)).cell P2_OUT.deref = m.cell P2_OUT.deref ∧
    (run m).cell P2_OUT.deref ≠ m.cell P2_OUT.deref ∧
    (run (run m)).cell P2_OUT.deref ≠ (run m).cell P2_OUT.deref ∧
    run (run m) ≠ run m := by
  have h1 : (run m).cell 0x50050400 = m.cell 0x50050400 ^^^ 0x200 := by
    rw [run_cell]; simp
  have h2 : (run (run m)).cell 0x50050400 = m.cell 0x50050400 := by
    rw [run_cell, if_pos rfl, h1, xor_twice]
  have h3 : (run (run m)).cell 0x50050400 ≠ (run m).cell 0x50050400 := by
    rw [h1, h2]; exact (xor_ne _).symm
  simp only [mmio_ptr.deref, P2_OUT]
  refine ⟨h2, ?_, h3, fun h => h3 (by rw [h])⟩
  rw [h1]; exact xor_ne _

/-- C8: with `index n` at `base + n * element_width` and `element_width = 4`,
the byte addresses `main` accesses are exactly the seven listed; they are
pairwise distinct and each is below `2 ^ 32`. -/
theorem C8_accessed_addresses (n : Nat) (m : Memory) :
    element_width = 4 ∧
    (∀ (b : mmio_ptr) (k : Nat), b.index k = b.p + k * element_width) ∧
    TAMPC_PROTECT_DOMAIN0_x.index 0 = 0x500DC500 ∧
    TAMPC_PROTECT_DOMAIN0_x.index 2 = 0x500DC508 ∧
    TAMPC_PROTECT_DOMAIN0_x.index 4 = 0x500DC510 ∧
    TAMPC_PROTECT_DOMAIN0_x.index 6 = 0x500DC518 ∧
    TAMPC_PROTECT_AP0_x.index 0 = 0x500DC700 ∧
    P2_PIN_CNF.index 9 = 0x500504A4 ∧
    P2_OUT.deref = 0x50050400 ∧
    ((main_trace n m).map Op.addr).dedup =
      [0x500DC500, 0x500DC508, 0x500DC510, 0x500DC518, 0x500DC700, 0x500504A4,
       0x50050400] ∧
    (accessed_places.map Place.addr).Nodup ∧
    (∀ a ∈ (main_trace n m).map Op.addr, a < 2 ^ 32) := by
  rw [main_trace_eq]
  refine ⟨rfl, fun _ _ => rfl, rfl, rfl, rfl, rfl, rfl, rfl, rfl, ?_, by decide, ?_⟩
  · simp [Op.addr, Place.addr, mmio_ptr.index, mmio_ptr.deref, element_width, P2_OUT,
      P2_PIN_CNF, TAMPC_PROTECT_DOMAIN0_x, TAMPC_PROTECT_AP0_x]
  · simp [Op.addr, Place.addr, mmio_ptr.index, mmio_ptr.deref, element_width, P2_OUT,
      P2_PIN_CNF, TAMPC_PROTECT_DOMAIN0_x, TAMPC_PROTECT_AP0_x]

/-- C9: every value `main` writes through the Protection-Domain or Access-Port
handle has high 16 bits `0x50FA`; to each of the five registers the first write
has low 16 bits `0x00F0` and the second `0x0001`. -/
theorem C9_unlock_values_keyed (n : Nat) (m : Memory) :
    (∀ v ∈ bank_write_values (main_trace n m), v / 2 ^ 16 = 0x50FA ∧ v < 2 ^ 32) ∧
    (bank_write_values (main_trace n m)).length = 10 ∧
    (∀ pl ∈ unlock_places,
      values_written_at pl.addr (main_trace n m) =
        [0x50FA * 2 ^ 16 + 0x00F0, 0x50FA * 2 ^ 16 + 0x0001] ∧
      (values_written_at pl.addr (main_trace n m)).map (fun v => v % 2 ^ 16) =
        [0x00F0, 0x0001]) ∧
    0x50FA00F0 = 0x50FA * 2 ^ 16 + 0x00F0 ∧ 0x50FA0001 = 0x50FA * 2 ^ 16 + 0x0001 := by
  rw [main_trace_eq]
  refine ⟨?_, ?_, ?_, by decide, by decide⟩
  · simp [bank_write_values, is_unlock_write, is_write_via, Place.ptr, P2_OUT,
      P2_PIN_CNF, TAMPC_PROTECT_DOMAIN0_x, TAMPC_PROTECT_AP0_x]
  · simp [bank_write_values, is_unlock_write, is_write_via, Place.ptr, P2_OUT,
      P2_PIN_CNF, TAMPC_PROTECT_DOMAIN0_x, TAMPC_PROTECT_AP0_x]
  · simp [unlock_places, values_written_at, is_write_at, Op.addr, Place.addr,
      mmio_ptr.index, mmio_ptr.deref, element_width, P2_OUT, P2_PIN_CNF,
      TAMPC_PROTECT_DOMAIN0_x, TAMPC_PROTECT_AP0_x]

/-- C10, as the claim states it, fails on byte memory: from the all-zero memory
the byte at `0x500DC503`, which is none of the seven accessed addresses, ends
as `0x50` (little-endian) or `0x01` (big-endian), and little-endian the byte at
`0x50050401` ends as 2; so the memory does not agree with the initial one at
every address other than the seven. -/
theorem C10_frame_fails_inside_register_word :
    0x500DC503 ∉ accessed_places.map Place.addr ∧
    0x50050401 ∉ accessed_places.map Place.addr ∧
    Bytes.zero.byte 0x500DC503 = 0 ∧
    Bytes.zero.byte 0x50050401 = 0 ∧
    (main_sequence_bytes .little Bytes.zero).byte 0x500DC503 = 0x50 ∧
    (main_sequence_bytes .big Bytes.zero).byte 0x500DC503 = 0x01 ∧
    (main_sequence_bytes .little Bytes.zero).byte 0x50050401 = 0x02 ∧
    ¬ (∀ (b : Bytes) (a : Nat), a ∉ accessed_places.map Place.addr →
        (main_sequence_bytes .little b).byte a = b.byte a) ∧
    ¬ (∀ (b : Bytes) (a : Nat), a ∉ accessed_places.map Place.addr →
        (main_sequence_bytes .big b).byte a = b.byte a) := by
  have hn : 0x500DC503 ∉ accessed_places.map Place.addr := by decide
  have hl : (main_sequence_bytes .little Bytes.zero).byte 0x500DC503 = 0x50 := by decide
  have hb : (main_sequence_bytes .big Bytes.zero).byte 0x500DC503 = 0x01 := by decide
  refine ⟨hn, by decide, rfl, rfl, hl, hb, by decide, ?_, ?_⟩
  · intro h
    have := h Bytes.zero 0x500DC503 hn
    rw [hl] at this
    exact absurd this (by decide)
  · intro h
    have := h Bytes.zero 0x500DC503 hn
    rw [hb] at this
    exact absurd this (by decide)

/-- C10, amended: for every initial byte memory and either byte order, the
register sequence leaves every byte outside the four-byte words of the seven
accessed registers unchanged, sets the five unlock registers to `0x50FA0001` and
PinConfig[9] to 1 whatever they held, and changes the GpioOut word in bit 9
only. -/
theorem C10_frame_outside_register_words (e : Endian) (b : Bytes) :
    (∀ x, (∀ pl ∈ accessed_places, x < pl.addr ∨ pl.addr + element_width ≤ x) →
      (main_sequence_bytes e b).byte x = b.byte x) ∧
    (∀ pl ∈ unlock_places, (main_sequence_bytes e b).load32 e pl.addr = 0x50FA0001) ∧
    (main_sequence_bytes e b).load32 e (P2_PIN_CNF.index 9) = 1 ∧
    (main_sequence_bytes e b).load32 e P2_OUT.deref ≠ b.load32 e P2_OUT.deref ∧
    (main_sequence_bytes e b).load32 e P2_OUT.deref < 2 ^ 32 ∧
    (main_sequence_bytes e b).load32 e P2_OUT.deref = b.load32 e P2_OUT.deref ^^^ 2 ^ 9 ∧
    ((main_sequence_bytes e b).load32 e P2_OUT.deref).testBit 9 =
      !(b.load32 e P2_OUT.deref).testBit 9 ∧
    (∀ i, i ≠ 9 →
      ((main_sequence_bytes e b).load32 e P2_OUT.deref).testBit i =
        (b.load32 e P2_OUT.deref).testBit i) := by
  obtain ⟨h1, h2, h3, h4, h5, h6, h7⟩ := main_sequence_bytes_registers e b
  have h8 : (main_sequence_bytes e b).load32 e 0x50050400 =
      b.load32 e 0x50050400 ^^^ 2 ^ 9 := h7
  refine ⟨fun x hx => main_sequence_bytes_outside e b x hx, ?_, ?_, ?_, ?_, ?_, ?_, ?_⟩
  · simp [unlock_places, Place.addr, mmio_ptr.index, element_width,
      TAMPC_PROTECT_DOMAIN0_x, TAMPC_PROTECT_AP0_x, h1, h2, h3, h4, h5]
  · simpa [mmio_ptr.index, element_width, P2_PIN_CNF] using h6
  · simp only [mmio_ptr.deref, P2_OUT]
    rw [h7]; exact xor_ne _
  · exact load32_lt e _ _
  · simpa [mmio_ptr.deref, P2_OUT] using h8
  · simp only [mmio_ptr.deref, P2_OUT]
    rw [h8, Nat.testBit_xor, Nat.testBit_two_pow_self]
    simp
  · intro i hi
    simp only [mmio_ptr.deref, P2_OUT]
    rw [h8, Nat.testBit_xor, Nat.testBit_two_pow_of_ne (Ne.symm hi)]
    simp

end Nrf54l
